import Mathlib

/-!
Verification development for the ghost-layer (halo) exchange core of a
distributed lattice-Boltzmann simulation (`exchangePDF.cpp`,
`fillGhostLayers.cpp`).

The embedding is shallow: buffers are total functions `Nat → α`; the triple
loops of the source are folds over the lexicographic voxel enumeration; each
`MPI_Sendrecv` becomes a record `Op` carrying the send/receive base offsets,
the transfer shape (contiguous count or strided vector, mirroring
`MPI_Type_vector`), the destination and source ranks and the message tag.
A rank of `none` models `MPI_PROC_NULL` ("no neighbor"): the receive leg of an
operation whose source is `none` leaves the local buffer untouched.  Data
received from an actual neighbor is modelled by an oracle `inc` giving, per
component and per operation, the incoming message values, so that theorems
quantify over every possible remote content.
-/

namespace SCMP

/-- Padded extent along one axis: `MXP = nn + MX + nn` in the source. -/
def padded (nn M : ℕ) : ℕ := nn + M + nn

/-- Linear index inside a padded 3D block, X fastest:
`index_3d = i + j*MXP + k*MXP*MYP`. -/
def index3D (mxp myp i j k : ℕ) : ℕ := i + j * mxp + k * (mxp * myp)

/-- Interleaved index of component `a` at voxel `(i,j,k)`:
`index_4d = a + index_3d * Q`. -/
def index4D (mxp myp Q i j k a : ℕ) : ℕ := a + index3D mxp myp i j k * Q

/-- Lexicographic enumeration of all padded voxels, `i` outermost then `j`
then `k`, mirroring the triple loop of the source. -/
def voxelList (mxp myp mzp : ℕ) : List (ℕ × ℕ × ℕ) :=
  (List.range mxp).flatMap fun i =>
    (List.range myp).flatMap fun j =>
      (List.range mzp).map fun k => (i, j, k)

/-- Gather step (`PDF3d[index_3d] = PDF4d[index_4d]` over all padded voxels):
extracts component `a` of the interleaved array into the scratch buffer. -/
def gather {α : Type} (mxp myp mzp Q a : ℕ) (PDF4d : ℕ → α) (PDF3d : ℕ → α) :
    ℕ → α :=
  (voxelList mxp myp mzp).foldl
    (fun buf t =>
      Function.update buf (index3D mxp myp t.1 t.2.1 t.2.2)
        (PDF4d (index4D mxp myp Q t.1 t.2.1 t.2.2 a)))
    PDF3d

/-- Scatter step (`PDF4d[index_4d] = PDF3d[index_3d]` over all padded voxels):
writes the scratch buffer back into component `a` of the interleaved array. -/
def scatter {α : Type} (mxp myp mzp Q a : ℕ) (PDF3d : ℕ → α) (PDF4d : ℕ → α) :
    ℕ → α :=
  (voxelList mxp myp mzp).foldl
    (fun buf t =>
      Function.update buf (index4D mxp myp Q t.1 t.2.1 t.2.2 a)
        (PDF3d (index3D mxp myp t.1 t.2.1 t.2.2)))
    PDF4d

/-- Transfer shape of one `MPI_Sendrecv`: either a contiguous run of `count`
elements, or a strided vector (`MPI_Type_vector count blocklen stride`). -/
inductive Shape
  | contiguous (count : ℕ)
  | vector (count blocklen stride : ℕ)
  deriving DecidableEq, Repr

/-- Absolute buffer addresses denoted by a shape anchored at `base`. -/
def shapeAddrs (base : ℕ) : Shape → List ℕ
  | Shape.contiguous c => (List.range c).map (fun t => base + t)
  | Shape.vector c b s =>
      (List.range c).flatMap fun bi =>
        (List.range b).map fun e => base + bi * s + e

/-- A process rank; `none` models `MPI_PROC_NULL` (no neighbor). -/
abbrev Rank := Option Int

/-- The six neighbor identities supplied by the caller. -/
structure Nbrs where
  west : Rank
  east : Rank
  south : Rank
  north : Rank
  bottom : Rank
  top : Rank
  deriving DecidableEq

/-- All six neighbors denote "no neighbor" (global domain boundary). -/
def allNoneNbrs : Nbrs := ⟨none, none, none, none, none, none⟩

/-- One paired send-receive (`MPI_Sendrecv`) on the scratch buffer. -/
structure Op where
  sendBase : ℕ
  recvBase : ℕ
  shape : Shape
  dest : Rank
  src : Rank
  tag : ℕ
  deriving DecidableEq

/-- Scratch addresses read by the send leg of an operation. -/
def sendAddrs (op : Op) : List ℕ := shapeAddrs op.sendBase op.shape

/-- Scratch addresses written by the receive leg of an operation. -/
def recvAddrs (op : Op) : List ℕ := shapeAddrs op.recvBase op.shape

/-- `MPI_Type_vector((MY+nn+nn)*(MZ+nn+nn), 1, MX+nn+nn)`: the X-normal face
descriptor. -/
def stridex (nn MX MY MZ : ℕ) : Shape :=
  Shape.vector ((MY + nn + nn) * (MZ + nn + nn)) 1 (MX + nn + nn)

/-- `MPI_Type_vector(MZ+nn+nn, MX+nn+nn, (MY+nn+nn)*(MX+nn+nn))`: the Y-normal
face descriptor. -/
def stridey (nn MX MY MZ : ℕ) : Shape :=
  Shape.vector (MZ + nn + nn) (MX + nn + nn) ((MY + nn + nn) * (MX + nn + nn))

/-- Send topmost interior Z-slab to `nbr_TOP`, receive into the bottom ghost
slab from `nbr_BOTTOM` (tag 111). -/
def zOp1 (nn MX MY MZ : ℕ) (nb : Nbrs) (i : ℕ) : Op :=
  ⟨0 + 0 * (nn + MX + nn) + (nn + (MZ - 1) - i) * ((nn + MX + nn) * (nn + MY + nn)),
   0 + 0 * (nn + MX + nn) + ((nn - 1) - i) * ((nn + MX + nn) * (nn + MY + nn)),
   Shape.contiguous ((nn + MX + nn) * (nn + MY + nn)),
   nb.top, nb.bottom, 111⟩

/-- Send bottommost interior Z-slab to `nbr_BOTTOM`, receive into the top
ghost slab from `nbr_TOP` (tag 222). -/
def zOp2 (nn MX MY MZ : ℕ) (nb : Nbrs) (i : ℕ) : Op :=
  ⟨0 + 0 * (nn + MX + nn) + (nn + i) * ((nn + MX + nn) * (nn + MY + nn)),
   0 + 0 * (nn + MX + nn) + (nn + MZ + i) * ((nn + MX + nn) * (nn + MY + nn)),
   Shape.contiguous ((nn + MX + nn) * (nn + MY + nn)),
   nb.bottom, nb.top, 222⟩

/-- Send eastmost interior X-face to `nbr_EAST`, receive into the west ghost
face from `nbr_WEST` (tag 333). -/
def xOp1 (nn MX MY MZ : ℕ) (nb : Nbrs) (i : ℕ) : Op :=
  ⟨(nn + (MX - 1) - i) + 0 * (nn + MX + nn) + 0 * ((nn + MX + nn) * (nn + MY + nn)),
   ((nn - 1) - i) + 0 * (nn + MX + nn) + 0 * ((nn + MX + nn) * (nn + MY + nn)),
   stridex nn MX MY MZ,
   nb.east, nb.west, 333⟩

/-- Send westmost interior X-face to `nbr_WEST`, receive into the east ghost
face from `nbr_EAST` (tag 444). -/
def xOp2 (nn MX MY MZ : ℕ) (nb : Nbrs) (i : ℕ) : Op :=
  ⟨(nn + i) + 0 * (nn + MX + nn) + 0 * ((nn + MX + nn) * (nn + MY + nn)),
   (nn + MX + i) + 0 * (nn + MX + nn) + 0 * ((nn + MX + nn) * (nn + MY + nn)),
   stridex nn MX MY MZ,
   nb.west, nb.east, 444⟩

/-- Send northmost interior Y-face to `nbr_NORTH`, receive into the south
ghost face from `nbr_SOUTH` (tag 555). -/
def yOp1 (nn MX MY MZ : ℕ) (nb : Nbrs) (i : ℕ) : Op :=
  ⟨0 + (nn + (MY - 1) - i) * (nn + MX + nn) + 0 * ((nn + MX + nn) * (nn + MY + nn)),
   0 + ((nn - 1) - i) * (nn + MX + nn) + 0 * ((nn + MX + nn) * (nn + MY + nn)),
   stridey nn MX MY MZ,
   nb.north, nb.south, 555⟩

/-- Send southmost interior Y-face to `nbr_SOUTH`, receive into the north
ghost face from `nbr_NORTH` (tag 666). -/
def yOp2 (nn MX MY MZ : ℕ) (nb : Nbrs) (i : ℕ) : Op :=
  ⟨0 + (nn + i) * (nn + MX + nn) + 0 * ((nn + MX + nn) * (nn + MY + nn)),
   0 + (nn + MY + i) * (nn + MX + nn) + 0 * ((nn + MX + nn) * (nn + MY + nn)),
   stridey nn MX MY MZ,
   nb.south, nb.north, 666⟩

/-- The six paired exchanges issued at ghost-layer index `i`, in source
order: bottom↔top twice, then west↔east twice, then south↔north twice. -/
def layerOps (nn MX MY MZ : ℕ) (nb : Nbrs) (i : ℕ) : List Op :=
  [zOp1 nn MX MY MZ nb i, zOp2 nn MX MY MZ nb i,
   xOp1 nn MX MY MZ nb i, xOp2 nn MX MY MZ nb i,
   yOp1 nn MX MY MZ nb i, yOp2 nn MX MY MZ nb i]

/-- All paired exchanges of one component pass: ghost-layer loop
`for i in 0..nn-1` around the six per-layer operations. -/
def opsFor (nn MX MY MZ : ℕ) (nb : Nbrs) : List Op :=
  (List.range nn).flatMap (layerOps nn MX MY MZ nb)

/-- Overwrite a buffer at the given address/value pairs, left to right. -/
def writeVals {α : Type} (buf : ℕ → α) (l : List (ℕ × α)) : ℕ → α :=
  l.foldl (fun b p => Function.update b p.1 p.2) buf

/-- Local effect of one `MPI_Sendrecv`: if the source rank is `none`
(`MPI_PROC_NULL`), the buffer is unchanged; otherwise the positions denoted
by the receive descriptor are overwritten with the incoming message `vals`
(position `p` of the message lands at the `p`-th generated address). -/
def applyOp {α : Type} (vals : ℕ → α) (op : Op) (buf : ℕ → α) : ℕ → α :=
  match op.src with
  | none => buf
  | some _ => writeVals buf ((recvAddrs op).enum.map fun p => (p.2, vals p.1))

/-- Run a list of operations in order; `inc n` is the incoming message of the
`n`-th operation. -/
def applyOps {α : Type} (inc : ℕ → ℕ → α) : ℕ → List Op → (ℕ → α) → (ℕ → α)
  | _, [], buf => buf
  | n, op :: rest, buf => applyOps inc (n + 1) rest (applyOp (inc n) op buf)

/-- One component pass of `exchangePDF`: gather component `a` into the scratch
buffer, run the six-direction exchange over every ghost layer, scatter the
scratch buffer back. -/
def exchangeComp {α : Type} (nn Q MX MY MZ : ℕ) (nb : Nbrs)
    (inc : ℕ → ℕ → ℕ → α) (scratchInit : ℕ → α) (field : ℕ → α) (a : ℕ) :
    ℕ → α :=
  scatter (padded nn MX) (padded nn MY) (padded nn MZ) Q a
    (applyOps (inc a) 0 (opsFor nn MX MY MZ nb)
      (gather (padded nn MX) (padded nn MY) (padded nn MZ) Q a field
        scratchInit))
    field

/-- The whole `exchangePDF` call: the component loop `for a in 0..Q-1` around
gather, exchange and scatter.  `scratchInit` models the (never read before
written) content of the freshly allocated scratch buffer; `inc a n` is the
message received by the `n`-th operation of component `a`. -/
def exchangePDF {α : Type} (nn Q MX MY MZ : ℕ) (nb : Nbrs)
    (inc : ℕ → ℕ → ℕ → α) (scratchInit : ℕ → α) (PDF4d : ℕ → α) : ℕ → α :=
  (List.range Q).foldl (exchangeComp nn Q MX MY MZ nb inc scratchInit) PDF4d

/-- Resource/communication events of one `exchangePDF` call. -/
inductive Ev
  | alloc (size : ℕ)
  | comm (op : Op)
  | free
  deriving DecidableEq

/-- Event trace of `exchangePDF`: one scratch allocation of
`MXP*MYP*MZP` before the component loop (source line 37), the communication
operations of every component, and one deallocation after the loop
(source line 363). -/
def exchangeEvents (nn Q MX MY MZ : ℕ) (nb : Nbrs) : List Ev :=
  [Ev.alloc ((nn + MX + nn) * (nn + MY + nn) * (nn + MZ + nn))]
    ++ (List.range Q).flatMap (fun _ => (opsFor nn MX MY MZ nb).map Ev.comm)
    ++ [Ev.free]

/-- Event is a scratch allocation. -/
def isAllocEv : Ev → Bool
  | Ev.alloc _ => true
  | _ => false

/-- Event is a scratch deallocation. -/
def isFreeEv : Ev → Bool
  | Ev.free => true
  | _ => false

/-- Event is a paired send-receive. -/
def isCommEv : Ev → Bool
  | Ev.comm _ => true
  | _ => false

/-- Argument bundle of one call to the external single-scalar exchange
collaborator `exchangeDBL`. -/
structure DBLArgs where
  nn : ℕ
  LX : ℕ
  LY : ℕ
  LZ : ℕ
  myid : Int
  nb : Nbrs
  deriving DecidableEq

/-- The four macroscopic scalar fields refreshed by `fillGhostLayersMacVar`. -/
inductive MacField
  | rho
  | u
  | v
  | w
  deriving DecidableEq

/-- Embedding of `fillGhostLayersMacVar`: refreshes the four scalar fields by
delegating each one to the external collaborator `exchangeDBL` (passed as an
abstract parameter, since its implementation is outside this core).  Returns
the four refreshed buffers together with the trace of collaborator calls in
program order. -/
def fillGhostLayersMacVar {α : Type} (nn LX LY LZ : ℕ) (myid : Int)
    (nb : Nbrs) (exchangeDBL : DBLArgs → (ℕ → α) → (ℕ → α))
    (rho u v w : ℕ → α) :
    ((ℕ → α) × (ℕ → α) × (ℕ → α) × (ℕ → α)) × List (DBLArgs × MacField) :=
  ((exchangeDBL ⟨nn, LX, LY, LZ, myid, nb⟩ rho,
    exchangeDBL ⟨nn, LX, LY, LZ, myid, nb⟩ u,
    exchangeDBL ⟨nn, LX, LY, LZ, myid, nb⟩ v,
    exchangeDBL ⟨nn, LX, LY, LZ, myid, nb⟩ w),
   [(⟨nn, LX, LY, LZ, myid, nb⟩, MacField.rho),
    (⟨nn, LX, LY, LZ, myid, nb⟩, MacField.u),
    (⟨nn, LX, LY, LZ, myid, nb⟩, MacField.v),
    (⟨nn, LX, LY, LZ, myid, nb⟩, MacField.w)])

end SCMP

namespace SCMP

/-- Writing at addresses `l` with values computed from the address itself. -/
def writeAll {α : Type} (f : ℕ → α) (l : List ℕ) (buf : ℕ → α) : ℕ → α :=
  l.foldl (fun b a => Function.update b a (f a)) buf

theorem writeAll_apply {α : Type} (f : ℕ → α) (l : List ℕ) (buf : ℕ → α)
    (idx : ℕ) :
    writeAll f l buf idx = if idx ∈ l then f idx else buf idx := by
  induction l generalizing buf with
  | nil => simp [writeAll]
  | cons a t ih =>
      show writeAll f t (Function.update buf a (f a)) idx = _
      rw [ih]
      by_cases ht : idx ∈ t
      · simp [ht]
      · by_cases ha : idx = a
        · subst ha; simp [ht]
        · simp [ht, ha, Function.update_noteq ha]

theorem writeVals_of_not_mem {α : Type} (buf : ℕ → α) (l : List (ℕ × α))
    (idx : ℕ) (h : idx ∉ l.map Prod.fst) : writeVals buf l idx = buf idx := by
  induction l generalizing buf with
  | nil => rfl
  | cons p t ih =>
      simp only [List.map_cons, List.mem_cons, not_or] at h
      show writeVals (Function.update buf p.1 p.2) t idx = _
      rw [ih _ h.2, Function.update_noteq h.1]

theorem mem_voxelList (mxp myp mzp i j k : ℕ) :
    (i, j, k) ∈ voxelList mxp myp mzp ↔ i < mxp ∧ j < myp ∧ k < mzp := by
  simp only [voxelList, List.mem_flatMap, List.mem_map, List.mem_range,
    Prod.mk.injEq]
  constructor
  · rintro ⟨a, ha, b, hb, c, hc, rfl, rfl, rfl⟩; exact ⟨ha, hb, hc⟩
  · rintro ⟨hi, hj, hk⟩; exact ⟨i, hi, j, hj, k, hk, rfl, rfl, rfl⟩

/-- The list of scratch addresses written by the gather loop. -/
def addrs3 (mxp myp mzp : ℕ) : List ℕ :=
  (voxelList mxp myp mzp).map fun t => index3D mxp myp t.1 t.2.1 t.2.2

/-- The list of interleaved addresses written by the scatter loop for
component `a`. -/
def addrs4 (mxp myp mzp Q a : ℕ) : List ℕ :=
  (voxelList mxp myp mzp).map fun t => index4D mxp myp Q t.1 t.2.1 t.2.2 a

theorem index3D_lt (mxp myp mzp i j k : ℕ) (hi : i < mxp) (hj : j < myp)
    (hk : k < mzp) : index3D mxp myp i j k < mxp * myp * mzp := by
  have h1 : j + myp * k < myp * mzp := by
    calc j + myp * k < myp + myp * k := by omega
    _ = myp * (k + 1) := by ring
    _ ≤ myp * mzp := Nat.mul_le_mul_left _ (by omega)
  calc index3D mxp myp i j k = i + mxp * (j + myp * k) := by
        unfold index3D; ring
  _ < mxp + mxp * (j + myp * k) := by omega
  _ = mxp * (j + myp * k + 1) := by ring
  _ ≤ mxp * (myp * mzp) := Nat.mul_le_mul_left _ (by omega)
  _ = mxp * myp * mzp := by ring

theorem index3D_decode (mxp myp i j k : ℕ) (hi : i < mxp) (hj : j < myp) :
    index3D mxp myp i j k % mxp = i ∧
    index3D mxp myp i j k / mxp % myp = j ∧
    index3D mxp myp i j k / (mxp * myp) = k := by
  have hx : 0 < mxp := by omega
  have hy : 0 < myp := by omega
  have he : index3D mxp myp i j k = i + mxp * (j + myp * k) := by
    unfold index3D; ring
  refine ⟨?_, ?_, ?_⟩
  · rw [he, Nat.add_mul_mod_self_left, Nat.mod_eq_of_lt hi]
  · rw [he, Nat.add_mul_div_left _ _ hx, Nat.div_eq_of_lt hi, Nat.zero_add,
      Nat.add_mul_mod_self_left, Nat.mod_eq_of_lt hj]
  · rw [he, ← Nat.div_div_eq_div_mul, Nat.add_mul_div_left _ _ hx,
      Nat.div_eq_of_lt hi, Nat.zero_add, Nat.add_mul_div_left _ _ hy,
      Nat.div_eq_of_lt hj, Nat.zero_add]

theorem mem_addrs3 (mxp myp mzp idx : ℕ) :
    idx ∈ addrs3 mxp myp mzp ↔ idx < mxp * myp * mzp := by
  constructor
  · intro h
    simp only [addrs3, List.mem_map] at h
    obtain ⟨⟨i, j, k⟩, hmem, rfl⟩ := h
    rw [mem_voxelList] at hmem
    exact index3D_lt _ _ _ _ _ _ hmem.1 hmem.2.1 hmem.2.2
  · intro h
    have hx : 0 < mxp := by
      rcases Nat.eq_zero_or_pos mxp with h0 | h0
      · subst h0; simp at h
      · exact h0
    have hy : 0 < myp := by
      rcases Nat.eq_zero_or_pos myp with h0 | h0
      · subst h0; simp at h
      · exact h0
    have hz : idx / (mxp * myp) < mzp := by
      rw [Nat.div_lt_iff_lt_mul (Nat.mul_pos hx hy)]
      calc idx < mxp * myp * mzp := h
      _ = mzp * (mxp * myp) := by ring
    refine List.mem_map.mpr ⟨(idx % mxp, idx / mxp % myp, idx / (mxp * myp)),
      (mem_voxelList _ _ _ _ _ _).mpr
        ⟨Nat.mod_lt _ hx, Nat.mod_lt _ hy, hz⟩, ?_⟩
    show index3D mxp myp (idx % mxp) (idx / mxp % myp) (idx / (mxp * myp)) = idx
    have he : index3D mxp myp (idx % mxp) (idx / mxp % myp) (idx / (mxp * myp))
        = idx % mxp + mxp * (idx / mxp % myp + myp * (idx / mxp / myp)) := by
      unfold index3D
      rw [Nat.div_div_eq_div_mul]
      ring
    rw [he, Nat.mod_add_div (idx / mxp) myp, Nat.mod_add_div idx mxp]

theorem addrs4_eq (mxp myp mzp Q a : ℕ) :
    addrs4 mxp myp mzp Q a = (addrs3 mxp myp mzp).map fun m => a + m * Q := by
  simp only [addrs4, addrs3, List.map_map]
  rfl

theorem mem_addrs4 (mxp myp mzp Q a idx : ℕ) :
    idx ∈ addrs4 mxp myp mzp Q a ↔
      ∃ m, m < mxp * myp * mzp ∧ idx = a + m * Q := by
  rw [addrs4_eq]
  simp only [List.mem_map, mem_addrs3]
  constructor
  · rintro ⟨m, hm, rfl⟩; exact ⟨m, hm, rfl⟩
  · rintro ⟨m, hm, rfl⟩; exact ⟨m, hm, rfl⟩

theorem gather_eq_writeAll {α : Type} (mxp myp mzp Q a : ℕ) (PDF4d : ℕ → α)
    (init : ℕ → α) :
    gather mxp myp mzp Q a PDF4d init
      = writeAll (fun idx => PDF4d (a + idx * Q)) (addrs3 mxp myp mzp) init := by
  unfold gather writeAll addrs3
  rw [List.foldl_map]
  rfl

theorem gather_at {α : Type} (mxp myp mzp Q a m : ℕ) (PDF4d : ℕ → α)
    (init : ℕ → α) (hm : m < mxp * myp * mzp) :
    gather mxp myp mzp Q a PDF4d init m = PDF4d (a + m * Q) := by
  rw [gather_eq_writeAll, writeAll_apply, if_pos ((mem_addrs3 _ _ _ _).mpr hm)]

theorem scatter_eq_writeAll {α : Type} (mxp myp mzp Q a : ℕ) (hQ : 0 < Q)
    (PDF3d : ℕ → α) (PDF4d : ℕ → α) :
    scatter mxp myp mzp Q a PDF3d PDF4d
      = writeAll (fun idx => PDF3d ((idx - a) / Q)) (addrs4 mxp myp mzp Q a)
          PDF4d := by
  unfold scatter writeAll addrs4
  rw [List.foldl_map]
  apply List.foldl_ext
  intro b t ht
  have hv : (index4D mxp myp Q t.1 t.2.1 t.2.2 a - a) / Q
      = index3D mxp myp t.1 t.2.1 t.2.2 := by
    unfold index4D
    rw [Nat.add_sub_cancel_left, Nat.mul_div_cancel _ hQ]
  simp only [hv]

theorem scatter_at {α : Type} (mxp myp mzp Q a m : ℕ) (hQ : 0 < Q)
    (PDF3d : ℕ → α) (PDF4d : ℕ → α) (hm : m < mxp * myp * mzp) :
    scatter mxp myp mzp Q a PDF3d PDF4d (a + m * Q) = PDF3d m := by
  rw [scatter_eq_writeAll _ _ _ _ _ hQ, writeAll_apply,
    if_pos ((mem_addrs4 _ _ _ _ _ _).mpr ⟨m, hm, rfl⟩),
    Nat.add_sub_cancel_left, Nat.mul_div_cancel _ hQ]

theorem scatter_out {α : Type} (mxp myp mzp Q a idx : ℕ) (hQ : 0 < Q)
    (PDF3d : ℕ → α) (PDF4d : ℕ → α)
    (h : ∀ m, m < mxp * myp * mzp → idx ≠ a + m * Q) :
    scatter mxp myp mzp Q a PDF3d PDF4d idx = PDF4d idx := by
  rw [scatter_eq_writeAll _ _ _ _ _ hQ, writeAll_apply, if_neg]
  intro hmem
  obtain ⟨m, hm, rfl⟩ := (mem_addrs4 _ _ _ _ _ _).mp hmem
  exact h m hm rfl

end SCMP

namespace SCMP

theorem applyOp_src_none {α : Type} (vals : ℕ → α) (op : Op) (buf : ℕ → α)
    (h : op.src = none) : applyOp vals op buf = buf := by
  unfold applyOp
  rw [h]

theorem applyOp_not_recv {α : Type} (vals : ℕ → α) (op : Op) (buf : ℕ → α)
    (idx : ℕ) (h : idx ∉ recvAddrs op) : applyOp vals op buf idx = buf idx := by
  unfold applyOp
  cases hs : op.src with
  | none => rfl
  | some r =>
      apply writeVals_of_not_mem
      rw [List.map_map]
      have : (Prod.fst ∘ fun p : ℕ × ℕ => (p.2, vals p.1)) = Prod.snd := by
        funext p; rfl
      rw [this, List.enum_map_snd]
      exact h

theorem applyOps_not_recv {α : Type} (inc : ℕ → ℕ → α) (ops : List Op)
    (n : ℕ) (buf : ℕ → α) (idx : ℕ) (h : ∀ op ∈ ops, idx ∉ recvAddrs op) :
    applyOps inc n ops buf idx = buf idx := by
  induction ops generalizing n buf with
  | nil => rfl
  | cons op rest ih =>
      show applyOps inc (n + 1) rest (applyOp (inc n) op buf) idx = _
      rw [ih (n + 1) _ fun o ho => h o (List.mem_cons_of_mem _ ho),
        applyOp_not_recv _ _ _ _ (h op (List.mem_cons_self _ _))]

theorem applyOps_all_none {α : Type} (inc : ℕ → ℕ → α) (ops : List Op)
    (n : ℕ) (buf : ℕ → α) (h : ∀ op ∈ ops, op.src = none) :
    applyOps inc n ops buf = buf := by
  induction ops generalizing n buf with
  | nil => rfl
  | cons op rest ih =>
      show applyOps inc (n + 1) rest (applyOp (inc n) op buf) = _
      rw [applyOp_src_none _ _ _ (h op (List.mem_cons_self _ _)),
        ih (n + 1) _ fun o ho => h o (List.mem_cons_of_mem _ ho)]

theorem mem_opsFor {nn MX MY MZ : ℕ} {nb : Nbrs} {op : Op}
    (h : op ∈ opsFor nn MX MY MZ nb) :
    ∃ i, i < nn ∧
      (op = zOp1 nn MX MY MZ nb i ∨ op = zOp2 nn MX MY MZ nb i ∨
       op = xOp1 nn MX MY MZ nb i ∨ op = xOp2 nn MX MY MZ nb i ∨
       op = yOp1 nn MX MY MZ nb i ∨ op = yOp2 nn MX MY MZ nb i) := by
  unfold opsFor at h
  rw [List.mem_flatMap] at h
  obtain ⟨i, hi, hmem⟩ := h
  rw [List.mem_range] at hi
  refine ⟨i, hi, ?_⟩
  simpa [layerOps] using hmem

theorem opsFor_src_allNone {nn MX MY MZ : ℕ} {op : Op}
    (h : op ∈ opsFor nn MX MY MZ allNoneNbrs) : op.src = none := by
  obtain ⟨i, _, hc⟩ := mem_opsFor h
  rcases hc with rfl | rfl | rfl | rfl | rfl | rfl <;> rfl

theorem scatter_gather_id {α : Type} (mxp myp mzp Q a : ℕ) (hQ : 0 < Q)
    (field : ℕ → α) (init : ℕ → α) (idx : ℕ) :
    scatter mxp myp mzp Q a (gather mxp myp mzp Q a field init) field idx
      = field idx := by
  by_cases h : ∃ m, m < mxp * myp * mzp ∧ idx = a + m * Q
  · obtain ⟨m, hm, rfl⟩ := h
    rw [scatter_at _ _ _ _ _ _ hQ _ _ hm, gather_at _ _ _ _ _ _ _ _ hm]
  · push_neg at h
    exact scatter_out _ _ _ _ _ _ hQ _ _ fun m hm => h m hm

theorem exchangeComp_allNone {α : Type} (nn Q MX MY MZ : ℕ)
    (inc : ℕ → ℕ → ℕ → α) (init : ℕ → α) (field : ℕ → α) (a : ℕ)
    (hQ : 0 < Q) (idx : ℕ) :
    exchangeComp nn Q MX MY MZ allNoneNbrs inc init field a idx = field idx := by
  unfold exchangeComp
  rw [applyOps_all_none _ _ _ _ fun o ho => opsFor_src_allNone ho]
  exact scatter_gather_id _ _ _ _ _ hQ _ _ _

theorem exchangePDF_allNone {α : Type} (nn Q MX MY MZ : ℕ)
    (inc : ℕ → ℕ → ℕ → α) (init : ℕ → α) (field : ℕ → α) (idx : ℕ) :
    exchangePDF nn Q MX MY MZ allNoneNbrs inc init field idx = field idx := by
  rcases Nat.eq_zero_or_pos Q with hQ | hQ
  · subst hQ; rfl
  · unfold exchangePDF
    have key : ∀ (l : List ℕ) (g : ℕ → α), (∀ p, g p = field p) →
        l.foldl (exchangeComp nn Q MX MY MZ allNoneNbrs inc init) g idx
          = field idx := by
      intro l
      induction l with
      | nil => intro g hg; exact hg idx
      | cons b t ih =>
          intro g hg
          show List.foldl _ (exchangeComp nn Q MX MY MZ allNoneNbrs inc init g b)
            t idx = field idx
          apply ih
          intro p
          rw [exchangeComp_allNone _ _ _ _ _ _ _ _ _ hQ]
          exact hg p
    exact key (List.range Q) field fun _ => rfl

end SCMP

namespace SCMP

theorem mem_shapeAddrs_contiguous (base c addr : ℕ) :
    addr ∈ shapeAddrs base (Shape.contiguous c) ↔
      ∃ t, t < c ∧ addr = base + t := by
  simp only [shapeAddrs, List.mem_map, List.mem_range]
  constructor
  · rintro ⟨t, ht, rfl⟩; exact ⟨t, ht, rfl⟩
  · rintro ⟨t, ht, rfl⟩; exact ⟨t, ht, rfl⟩

theorem mem_shapeAddrs_vector (base c b s addr : ℕ) :
    addr ∈ shapeAddrs base (Shape.vector c b s) ↔
      ∃ bi, bi < c ∧ ∃ e, e < b ∧ addr = base + bi * s + e := by
  simp only [shapeAddrs, List.mem_flatMap, List.mem_map, List.mem_range]
  constructor
  · rintro ⟨bi, hbi, e, he, rfl⟩; exact ⟨bi, hbi, e, he, rfl⟩
  · rintro ⟨bi, hbi, e, he, rfl⟩; exact ⟨bi, hbi, e, he, rfl⟩

theorem slab_div (A zc t : ℕ) (hA : 0 < A) (ht : t < A) :
    (zc * A + t) / A = zc := by
  have h1 : zc * A + t = t + A * zc := by ring
  rw [h1, Nat.add_mul_div_left _ _ hA, Nat.div_eq_of_lt ht, Nat.zero_add]

theorem col_mod (P r bi : ℕ) (hr : r < P) : (r + bi * P) % P = r := by
  rw [Nat.add_mul_mod_self_right, Nat.mod_eq_of_lt hr]

theorem decode_div (P m e : ℕ) (hP : 0 < P) (he : e < P) :
    (e + P * m) / P = m := by
  rw [Nat.add_mul_div_left _ _ hP, Nat.div_eq_of_lt he, Nat.zero_add]

theorem ycol_decode (P Ymax ry bi e : ℕ) (hP : 0 < P) (hry : ry < Ymax)
    (he : e < P) : (ry * P + bi * (Ymax * P) + e) / P % Ymax = ry := by
  have h1 : ry * P + bi * (Ymax * P) + e = e + P * (ry + Ymax * bi) := by ring
  rw [h1, decode_div P _ e hP he, Nat.add_mul_mod_self_left,
    Nat.mod_eq_of_lt hry]

/-- Every address written by a receive leg of the engine lies in a ghost
layer: an interior voxel address is never the target of a receive. -/
theorem interior_not_recv (nn MX MY MZ : ℕ) (nb : Nbrs) (op : Op) (x y z : ℕ)
    (hX : 1 ≤ MX) (hY : 1 ≤ MY) (hZ : 1 ≤ MZ) (hn : 1 ≤ nn)
    (hx1 : nn ≤ x) (hx2 : x < nn + MX)
    (hy1 : nn ≤ y) (hy2 : y < nn + MY)
    (hz1 : nn ≤ z) (hz2 : z < nn + MZ)
    (hop : op ∈ opsFor nn MX MY MZ nb) :
    index3D (nn + MX + nn) (nn + MY + nn) x y z ∉ recvAddrs op := by
  intro hmem
  have hxP : x < nn + MX + nn := by omega
  have hyP : y < nn + MY + nn := by omega
  obtain ⟨hdx, hdy, hdz⟩ :=
    index3D_decode (nn + MX + nn) (nn + MY + nn) x y z hxP hyP
  have hPx : 0 < nn + MX + nn := by omega
  have hPxy : 0 < (nn + MX + nn) * (nn + MY + nn) :=
    Nat.mul_pos hPx (by omega)
  have e1 : MX + nn + nn = nn + MX + nn := by ring
  have e2 : MY + nn + nn = nn + MY + nn := by ring
  have e3 : MZ + nn + nn = nn + MZ + nn := by ring
  obtain ⟨i, hi, hc⟩ := mem_opsFor hop
  rcases hc with rfl | rfl | rfl | rfl | rfl | rfl
  · simp only [recvAddrs, zOp1, zero_mul, Nat.zero_add] at hmem
    rw [mem_shapeAddrs_contiguous] at hmem
    obtain ⟨t, ht, heq⟩ := hmem
    rw [heq, slab_div _ _ _ hPxy ht] at hdz
    omega
  · simp only [recvAddrs, zOp2, zero_mul, Nat.zero_add] at hmem
    rw [mem_shapeAddrs_contiguous] at hmem
    obtain ⟨t, ht, heq⟩ := hmem
    rw [heq, slab_div _ _ _ hPxy ht] at hdz
    omega
  · simp only [recvAddrs, xOp1, stridex, e1, e2, e3, zero_mul,
      Nat.add_zero] at hmem
    rw [mem_shapeAddrs_vector] at hmem
    obtain ⟨bi, hbi, e, he, heq⟩ := hmem
    have he0 : e = 0 := by omega
    subst he0
    rw [Nat.add_zero] at heq
    rw [heq, col_mod _ _ _ (by omega)] at hdx
    omega
  · simp only [recvAddrs, xOp2, stridex, e1, e2, e3, zero_mul,
      Nat.add_zero] at hmem
    rw [mem_shapeAddrs_vector] at hmem
    obtain ⟨bi, hbi, e, he, heq⟩ := hmem
    have he0 : e = 0 := by omega
    subst he0
    rw [Nat.add_zero] at heq
    rw [heq, col_mod _ _ _ (by omega)] at hdx
    omega
  · simp only [recvAddrs, yOp1, stridey, e1, e2, e3, zero_mul, Nat.add_zero,
      Nat.zero_add] at hmem
    rw [mem_shapeAddrs_vector] at hmem
    obtain ⟨bi, hbi, e, he, heq⟩ := hmem
    rw [heq, ycol_decode _ _ _ _ _ hPx (by omega) he] at hdy
    omega
  · simp only [recvAddrs, yOp2, stridey, e1, e2, e3, zero_mul, Nat.add_zero,
      Nat.zero_add] at hmem
    rw [mem_shapeAddrs_vector] at hmem
    obtain ⟨bi, hbi, e, he, heq⟩ := hmem
    rw [heq, ycol_decode _ _ _ _ _ hPx (by omega) he] at hdy
    omega

/-- One component pass leaves every interior element of the interleaved
array unchanged, whatever data arrives from the neighbors. -/
theorem exchangeComp_interior {α : Type} (nn Q MX MY MZ b : ℕ) (nb : Nbrs)
    (inc : ℕ → ℕ → ℕ → α) (init : ℕ → α) (g : ℕ → α) (x y z a : ℕ)
    (hX : 1 ≤ MX) (hY : 1 ≤ MY) (hZ : 1 ≤ MZ) (hn : 1 ≤ nn)
    (hx1 : nn ≤ x) (hx2 : x < nn + MX)
    (hy1 : nn ≤ y) (hy2 : y < nn + MY)
    (hz1 : nn ≤ z) (hz2 : z < nn + MZ)
    (ha : a < Q) (hb : b < Q) :
    exchangeComp nn Q MX MY MZ nb inc init g b
        (index4D (padded nn MX) (padded nn MY) Q x y z a)
      = g (index4D (padded nn MX) (padded nn MY) Q x y z a) := by
  unfold exchangeComp
  by_cases hab : b = a
  · subst hab
    have hm : index3D (padded nn MX) (padded nn MY) x y z
        < padded nn MX * padded nn MY * padded nn MZ := by
      apply index3D_lt
      · show x < padded nn MX
        unfold padded; omega
      · show y < padded nn MY
        unfold padded; omega
      · show z < padded nn MZ
        unfold padded; omega
    have h4 : index4D (padded nn MX) (padded nn MY) Q x y z b
        = b + index3D (padded nn MX) (padded nn MY) x y z * Q := rfl
    rw [h4, scatter_at _ _ _ _ _ _ (by omega) _ _ hm, applyOps_not_recv,
      gather_at _ _ _ _ _ _ _ _ hm]
    intro op hop
    exact interior_not_recv nn MX MY MZ nb op x y z hX hY hZ hn hx1 hx2 hy1
      hy2 hz1 hz2 hop
  · apply scatter_out _ _ _ _ _ _ (by omega)
    intro m hm heq
    have hmod : (a + index3D (padded nn MX) (padded nn MY) x y z * Q) % Q
        = (b + m * Q) % Q := by
      rw [← heq]
      rfl
    rw [Nat.add_mul_mod_self_right, Nat.add_mul_mod_self_right,
      Nat.mod_eq_of_lt ha, Nat.mod_eq_of_lt hb] at hmod
    exact hab hmod.symm

end SCMP

namespace SCMP

/-- Concrete buffers used by witness instantiations. -/
def wField : ℕ → Int := fun n => Int.ofNat n

/-- Concrete scratch-buffer initial content used by witness instantiations. -/
def wInit : ℕ → Int := fun _ => 0

/-- Concrete incoming-message oracle used by witness instantiations. -/
def wInc : ℕ → ℕ → ℕ → Int := fun _ _ _ => 7

/-- Concrete single-operation message used by witness instantiations. -/
def wVals : ℕ → Int := fun _ => 5

/-- Concrete buffer used by witness instantiations. -/
def wBuf : ℕ → Int := fun n => Int.ofNat (2 * n)

/-- A topology in which all six neighbors exist. -/
def wNbrs : Nbrs := ⟨some 10, some 11, some 12, some 13, some 14, some 15⟩

/-- C2: for every component `a < Q` and every padded voxel `(i,j,k)` the
Gather step sets `scratch[index3D(i,j,k)] = interleaved[index4D(i,j,k,a)]`,
with `index3D(i,j,k) = i + j*MXP + k*MXP*MYP` and
`index4D(i,j,k,a) = a + index3D(i,j,k)*Q`; it is a pure copy (stated for an
arbitrary value type, so no numeric transformation is possible) and it visits
ghost voxels too, since `(i,j,k)` ranges over the full padded extents. -/
theorem C2_gather_pure_copy {α : Type} (nn MX MY MZ Q a i j k : ℕ)
    (PDF4d init : ℕ → α) (ha : a < Q)
    (hi : i < padded nn MX) (hj : j < padded nn MY) (hk : k < padded nn MZ) :
    gather (padded nn MX) (padded nn MY) (padded nn MZ) Q a PDF4d init
        (index3D (padded nn MX) (padded nn MY) i j k)
      = PDF4d (index4D (padded nn MX) (padded nn MY) Q i j k a) := by
  rw [gather_at _ _ _ _ _ _ _ _ (index3D_lt _ _ _ _ _ _ hi hj hk)]
  rfl

/-- Witness for C2 at `nn=1, MX=MY=MZ=2, Q=2, a=1`, ghost voxel `(3,2,1)`. -/
theorem C2_gather_pure_copy_witness :
    gather (padded 1 2) (padded 1 2) (padded 1 2) 2 1 wField wInit
        (index3D (padded 1 2) (padded 1 2) 3 2 1)
      = wField (index4D (padded 1 2) (padded 1 2) 2 3 2 1 1) :=
  C2_gather_pure_copy 1 2 2 2 2 1 3 2 1 wField wInit (by decide) (by decide)
    (by decide) (by decide)

/-- C3: for every interleaved field, extents `MX,MY,MZ ≥ 1`, `nn ≥ 1` and
`Q ≥ 1`, running the whole per-component Gather/Scatter cycle with no
communication (all six neighbors denote "no neighbor") leaves the interleaved
field bit-identical at every position, for all `Q` components. -/
theorem C3_gather_scatter_roundtrip {α : Type} (nn Q MX MY MZ : ℕ)
    (inc : ℕ → ℕ → ℕ → α) (init field : ℕ → α) (idx : ℕ)
    (hX : 1 ≤ MX) (hY : 1 ≤ MY) (hZ : 1 ≤ MZ) (hn : 1 ≤ nn) (hQ : 1 ≤ Q) :
    exchangePDF nn Q MX MY MZ allNoneNbrs inc init field idx = field idx :=
  exchangePDF_allNone nn Q MX MY MZ inc init field idx

/-- Witness for C3 at `nn=1, Q=2, MX=MY=MZ=1`, position 13. -/
theorem C3_gather_scatter_roundtrip_witness :
    exchangePDF 1 2 1 1 1 allNoneNbrs wInc wInit wField 13 = wField 13 :=
  C3_gather_scatter_roundtrip 1 2 1 1 1 wInc wInit wField 13 (by decide)
    (by decide) (by decide) (by decide) (by decide)

/-- C5: after `exchangePDF` returns, every interior element
`index4D(x,y,z,a)` with `nn ≤ x < nn+MX`, `nn ≤ y < nn+MY`, `nn ≤ z < nn+MZ`
and `a < Q` equals its pre-call value, for every topology and every possible
content of the incoming messages: only ghost-region elements may be
mutated. -/
theorem C5_interior_untouched {α : Type} (nn Q MX MY MZ : ℕ) (nb : Nbrs)
    (inc : ℕ → ℕ → ℕ → α) (init field : ℕ → α) (x y z a : ℕ)
    (hX : 1 ≤ MX) (hY : 1 ≤ MY) (hZ : 1 ≤ MZ) (hn : 1 ≤ nn)
    (hx1 : nn ≤ x) (hx2 : x < nn + MX)
    (hy1 : nn ≤ y) (hy2 : y < nn + MY)
    (hz1 : nn ≤ z) (hz2 : z < nn + MZ)
    (ha : a < Q) :
    exchangePDF nn Q MX MY MZ nb inc init field
        (index4D (padded nn MX) (padded nn MY) Q x y z a)
      = field (index4D (padded nn MX) (padded nn MY) Q x y z a) := by
  unfold exchangePDF
  have key : ∀ l : List ℕ, (∀ b ∈ l, b < Q) → ∀ g : ℕ → α,
      g (index4D (padded nn MX) (padded nn MY) Q x y z a)
        = field (index4D (padded nn MX) (padded nn MY) Q x y z a) →
      (l.foldl (exchangeComp nn Q MX MY MZ nb inc init) g)
          (index4D (padded nn MX) (padded nn MY) Q x y z a)
        = field (index4D (padded nn MX) (padded nn MY) Q x y z a) := by
    intro l
    induction l with
    | nil => intro _ g hg; exact hg
    | cons b t ih =>
        intro hl g hg
        show List.foldl _ (exchangeComp nn Q MX MY MZ nb inc init g b) t _ = _
        apply ih fun o ho => hl o (List.mem_cons_of_mem _ ho)
        rw [exchangeComp_interior nn Q MX MY MZ b nb inc init g x y z a hX hY
          hZ hn hx1 hx2 hy1 hy2 hz1 hz2 ha (hl b (List.mem_cons_self _ _))]
        exact hg
  exact key (List.range Q) (fun b hb => List.mem_range.mp hb) field rfl

/-- Witness for C5 at `nn=1, Q=1, MX=MY=MZ=1`, interior voxel `(1,1,1)`,
with all six neighbors present and nonzero incoming data. -/
theorem C5_interior_untouched_witness :
    exchangePDF 1 1 1 1 1 wNbrs wInc wInit wField
        (index4D (padded 1 1) (padded 1 1) 1 1 1 1 0)
      = wField (index4D (padded 1 1) (padded 1 1) 1 1 1 1 0) :=
  C5_interior_untouched 1 1 1 1 1 wNbrs wInc wInit wField 1 1 1 0 (by decide)
    (by decide) (by decide) (by decide) (by decide) (by decide) (by decide)
    (by decide) (by decide) (by decide) (by decide)

/-- C6: with all six neighbor identities equal to "no neighbor" the exchange
completes and every ghost-layer element of the field equals its pre-call
value (stated for a ghost voxel `(x,y,z)`: one of its coordinates lies in a
ghost range), for every component and ghost depth; moreover an operation
whose source neighbor is "no neighbor" is a safe no-op on the buffer. -/
theorem C6_no_neighbor_safety {α : Type} (nn Q MX MY MZ x y z a : ℕ)
    (inc : ℕ → ℕ → ℕ → α) (init field : ℕ → α) (nb : Nbrs) (op : Op)
    (vals buf : ℕ → α)
    (ha : a < Q) (hx : x < padded nn MX) (hy : y < padded nn MY)
    (hz : z < padded nn MZ)
    (hghost : x < nn ∨ nn + MX ≤ x ∨ y < nn ∨ nn + MY ≤ y ∨ z < nn ∨
      nn + MZ ≤ z)
    (hop : op ∈ opsFor nn MX MY MZ nb) (hsrc : op.src = none) :
    exchangePDF nn Q MX MY MZ allNoneNbrs inc init field
        (index4D (padded nn MX) (padded nn MY) Q x y z a)
      = field (index4D (padded nn MX) (padded nn MY) Q x y z a)
    ∧ applyOp vals op buf = buf :=
  ⟨exchangePDF_allNone _ _ _ _ _ _ _ _ _, applyOp_src_none _ _ _ hsrc⟩

/-- Witness for C6 at `nn=1, Q=1, MX=MY=MZ=1`, ghost voxel `(0,1,1)` and the
first per-layer operation (receive from the bottom neighbor, here absent). -/
theorem C6_no_neighbor_safety_witness :
    exchangePDF 1 1 1 1 1 allNoneNbrs wInc wInit wField
        (index4D (padded 1 1) (padded 1 1) 1 0 1 1 0)
      = wField (index4D (padded 1 1) (padded 1 1) 1 0 1 1 0)
    ∧ applyOp wVals (zOp1 1 1 1 1 allNoneNbrs 0) wBuf = wBuf :=
  C6_no_neighbor_safety 1 1 1 1 1 0 1 1 0 wInc wInit wField allNoneNbrs
    (zOp1 1 1 1 1 allNoneNbrs 0) wVals wBuf (by decide) (by decide)
    (by decide) (by decide) (by decide) (by decide) (by decide)

end SCMP

namespace SCMP

theorem twoD_lt (Y Z j k : ℕ) (hj : j < Y) (hk : k < Z) : j + Y * k < Y * Z := by
  calc j + Y * k < Y + Y * k := by omega
  _ = Y * (k + 1) := by ring
  _ ≤ Y * Z := Nat.mul_le_mul_left _ (by omega)

/-- C4: the X-normal descriptor selects exactly `MYP*MZP` single elements
spaced `MXP` apart and the Y-normal descriptor selects `MZP` contiguous runs
of length `MXP` spaced `MXP*MYP` apart; at `MX=4, MY=3, MZ=2, nn=1` they
select 20 elements spaced 6 apart, respectively 4 runs of length 6 spaced 30
apart; and from a face base address the generated addresses coincide with the
brute-force `index3D` enumeration of that face. -/
theorem C4_face_descriptors (nn MX MY MZ x0 y0 addr addr2 : ℕ)
    (hX : 1 ≤ MX) (hY : 1 ≤ MY) (hZ : 1 ≤ MZ) (hn : 1 ≤ nn) :
    stridex nn MX MY MZ
        = Shape.vector (padded nn MY * padded nn MZ) 1 (padded nn MX)
    ∧ stridey nn MX MY MZ
        = Shape.vector (padded nn MZ) (padded nn MX)
            (padded nn MX * padded nn MY)
    ∧ shapeAddrs 0 (stridex 1 4 3 2) = (List.range 20).map (fun t => t * 6)
    ∧ shapeAddrs 0 (stridey 1 4 3 2)
        = (List.range 4).flatMap (fun r => (List.range 6).map
            (fun e => r * 30 + e))
    ∧ (addr ∈ shapeAddrs (index3D (padded nn MX) (padded nn MY) x0 0 0)
          (stridex nn MX MY MZ) ↔
        ∃ j k, j < padded nn MY ∧ k < padded nn MZ ∧
          addr = index3D (padded nn MX) (padded nn MY) x0 j k)
    ∧ (addr2 ∈ shapeAddrs (index3D (padded nn MX) (padded nn MY) 0 y0 0)
          (stridey nn MX MY MZ) ↔
        ∃ i k, i < padded nn MX ∧ k < padded nn MZ ∧
          addr2 = index3D (padded nn MX) (padded nn MY) i y0 k) := by
  have e1 : MX + nn + nn = nn + MX + nn := by ring
  have e2 : MY + nn + nn = nn + MY + nn := by ring
  have e3 : MZ + nn + nn = nn + MZ + nn := by ring
  have hbx : index3D (padded nn MX) (padded nn MY) x0 0 0 = x0 := by
    simp [index3D]
  have hby : index3D (padded nn MX) (padded nn MY) 0 y0 0
      = y0 * padded nn MX := by
    simp [index3D]
  have hYpos : 0 < padded nn MY := by unfold padded; omega
  have e4 : (nn + MY + nn) * (nn + MX + nn) = (nn + MX + nn) * (nn + MY + nn) :=
    Nat.mul_comm _ _
  refine ⟨?_, ?_, by decide, by decide, ?_, ?_⟩
  · simp only [stridex, padded, e1, e2, e3]
  · simp only [stridey, padded, e1, e2, e3, e4]
  · rw [hbx]
    simp only [stridex, e1, e2, e3, mem_shapeAddrs_vector]
    constructor
    · rintro ⟨bi, hbi, e, he, rfl⟩
      have he0 : e = 0 := by omega
      subst he0
      refine ⟨bi % padded nn MY, bi / padded nn MY, Nat.mod_lt _ hYpos, ?_, ?_⟩
      · rw [Nat.div_lt_iff_lt_mul hYpos]
        calc bi < padded nn MY * padded nn MZ := hbi
        _ = padded nn MZ * padded nn MY := by ring
      · have hsplit : bi % padded nn MY + padded nn MY * (bi / padded nn MY)
            = bi := Nat.mod_add_div bi (padded nn MY)
        calc x0 + bi * padded nn MX + 0
            = x0 + padded nn MX * bi := by ring
        _ = x0 + padded nn MX
              * (bi % padded nn MY + padded nn MY * (bi / padded nn MY)) := by
              rw [hsplit]
        _ = index3D (padded nn MX) (padded nn MY) x0 (bi % padded nn MY)
              (bi / padded nn MY) := by unfold index3D; ring
    · rintro ⟨j, k, hj, hk, rfl⟩
      refine ⟨j + padded nn MY * k, twoD_lt _ _ _ _ hj hk, 0, by omega, ?_⟩
      unfold index3D padded
      ring
  · rw [hby]
    simp only [stridey, e1, e2, e3, mem_shapeAddrs_vector]
    constructor
    · rintro ⟨bi, hbi, e, he, rfl⟩
      refine ⟨e, bi, he, hbi, ?_⟩
      unfold index3D padded
      ring
    · rintro ⟨i, k, hi, hk, rfl⟩
      refine ⟨k, hk, i, hi, ?_⟩
      unfold index3D padded
      ring

/-- Witness for C4 at `nn=1, MX=4, MY=3, MZ=2`, face coordinate 0, address 0. -/
theorem C4_face_descriptors_witness :
    stridex 1 4 3 2 = Shape.vector (padded 1 3 * padded 1 2) 1 (padded 1 4)
    ∧ stridey 1 4 3 2
        = Shape.vector (padded 1 2) (padded 1 4) (padded 1 4 * padded 1 3)
    ∧ shapeAddrs 0 (stridex 1 4 3 2) = (List.range 20).map (fun t => t * 6)
    ∧ shapeAddrs 0 (stridey 1 4 3 2)
        = (List.range 4).flatMap (fun r => (List.range 6).map
            (fun e => r * 30 + e))
    ∧ (0 ∈ shapeAddrs (index3D (padded 1 4) (padded 1 3) 0 0 0)
          (stridex 1 4 3 2) ↔
        ∃ j k, j < padded 1 3 ∧ k < padded 1 2 ∧
          0 = index3D (padded 1 4) (padded 1 3) 0 j k)
    ∧ (0 ∈ shapeAddrs (index3D (padded 1 4) (padded 1 3) 0 0 0)
          (stridey 1 4 3 2) ↔
        ∃ i k, i < padded 1 4 ∧ k < padded 1 2 ∧
          0 = index3D (padded 1 4) (padded 1 3) i 0 k) :=
  C4_face_descriptors 1 4 3 2 0 0 0 0 (by decide) (by decide) (by decide)
    (by decide)

/-- C9: `fillGhostLayersMacVar` delegates exactly once per scalar field, in
the order rho, u, v, w, to the single-scalar collaborator `exchangeDBL`,
passing every call the identical `nn`, extents, rank, communicator and
neighbor identities, and performs no repacking of its own: each returned
buffer is exactly one application of the collaborator to the raw input
buffer. -/
theorem C9_fill_delegates {α : Type} (nn LX LY LZ : ℕ) (myid : Int)
    (nb : Nbrs) (exchangeDBL : DBLArgs → (ℕ → α) → (ℕ → α))
    (rho u v w : ℕ → α) :
    (fillGhostLayersMacVar nn LX LY LZ myid nb exchangeDBL rho u v w).2
        = [(⟨nn, LX, LY, LZ, myid, nb⟩, MacField.rho),
           (⟨nn, LX, LY, LZ, myid, nb⟩, MacField.u),
           (⟨nn, LX, LY, LZ, myid, nb⟩, MacField.v),
           (⟨nn, LX, LY, LZ, myid, nb⟩, MacField.w)]
    ∧ (fillGhostLayersMacVar nn LX LY LZ myid nb exchangeDBL rho u v w).1
        = (exchangeDBL ⟨nn, LX, LY, LZ, myid, nb⟩ rho,
           exchangeDBL ⟨nn, LX, LY, LZ, myid, nb⟩ u,
           exchangeDBL ⟨nn, LX, LY, LZ, myid, nb⟩ v,
           exchangeDBL ⟨nn, LX, LY, LZ, myid, nb⟩ w) :=
  ⟨rfl, rfl⟩

end SCMP

namespace SCMP

theorem mid_comm {nn Q MX MY MZ : ℕ} {nb : Nbrs} {x : Ev}
    (hx : x ∈ (List.range Q).flatMap
      fun _ => (opsFor nn MX MY MZ nb).map Ev.comm) :
    ∃ op, x = Ev.comm op := by
  simp only [List.mem_flatMap, List.mem_map, List.mem_range] at hx
  obtain ⟨_, _, op, _, rfl⟩ := hx
  exact ⟨op, rfl⟩

theorem exchangeEvents_filter_comm (nn Q MX MY MZ : ℕ) (nb : Nbrs) :
    (exchangeEvents nn Q MX MY MZ nb).filter isCommEv
      = (List.range Q).flatMap
          fun _ => (opsFor nn MX MY MZ nb).map Ev.comm := by
  have hmid : ((List.range Q).flatMap
      fun _ => (opsFor nn MX MY MZ nb).map Ev.comm).filter isCommEv
        = (List.range Q).flatMap
            fun _ => (opsFor nn MX MY MZ nb).map Ev.comm := by
    rw [List.filter_eq_self]
    intro x hx
    obtain ⟨op, rfl⟩ := mid_comm hx
    rfl
  have h1 : List.filter isCommEv
      [Ev.alloc ((nn + MX + nn) * (nn + MY + nn) * (nn + MZ + nn))] = [] := rfl
  have h3 : List.filter isCommEv [Ev.free] = [] := rfl
  simp only [exchangeEvents, List.filter_append, hmid, h1, h3,
    List.nil_append, List.append_nil]

theorem opsFor_length (nn MX MY MZ : ℕ) (nb : Nbrs) :
    (opsFor nn MX MY MZ nb).length = nn * 6 := by
  unfold opsFor
  rw [List.length_flatMap]
  have hmap : (List.range nn).map (List.length ∘ layerOps nn MX MY MZ nb)
      = List.replicate nn 6 := by
    rw [show (List.length ∘ layerOps nn MX MY MZ nb) = fun _ : ℕ => 6
      from rfl]
    rw [List.map_const', List.length_range]
  rw [hmap, List.sum_replicate, smul_eq_mul]

/-- C1: for every component and every ghost-layer index `i < nn`, the
Exchange Engine issues exactly six paired send-receive operations, in the
canonical Z, X, Y axis order, with exactly the base offsets, transfer shapes
and peers of the addressing table — e.g. the first pair sends the contiguous
slab of `MXP*MYP` elements based at `z = nn+(MZ-1)-i` to the top neighbor
with receive into `z = (nn-1)-i` from the bottom neighbor — the six pairs of
one layer carry the pairwise-distinct tags 111..666, and the communication
trace of the whole call repeats this operation list once per component. -/
theorem C1_exchange_engine_table (nn Q MX MY MZ : ℕ) (nb : Nbrs) :
    opsFor nn MX MY MZ nb = (List.range nn).flatMap (fun i =>
      [⟨index3D (padded nn MX) (padded nn MY) 0 0 (nn + (MZ - 1) - i),
        index3D (padded nn MX) (padded nn MY) 0 0 ((nn - 1) - i),
        Shape.contiguous (padded nn MX * padded nn MY),
        nb.top, nb.bottom, 111⟩,
       ⟨index3D (padded nn MX) (padded nn MY) 0 0 (nn + i),
        index3D (padded nn MX) (padded nn MY) 0 0 (nn + MZ + i),
        Shape.contiguous (padded nn MX * padded nn MY),
        nb.bottom, nb.top, 222⟩,
       ⟨index3D (padded nn MX) (padded nn MY) (nn + (MX - 1) - i) 0 0,
        index3D (padded nn MX) (padded nn MY) ((nn - 1) - i) 0 0,
        Shape.vector (padded nn MY * padded nn MZ) 1 (padded nn MX),
        nb.east, nb.west, 333⟩,
       ⟨index3D (padded nn MX) (padded nn MY) (nn + i) 0 0,
        index3D (padded nn MX) (padded nn MY) (nn + MX + i) 0 0,
        Shape.vector (padded nn MY * padded nn MZ) 1 (padded nn MX),
        nb.west, nb.east, 444⟩,
       ⟨index3D (padded nn MX) (padded nn MY) 0 (nn + (MY - 1) - i) 0,
        index3D (padded nn MX) (padded nn MY) 0 ((nn - 1) - i) 0,
        Shape.vector (padded nn MZ) (padded nn MX)
          (padded nn MX * padded nn MY),
        nb.north, nb.south, 555⟩,
       ⟨index3D (padded nn MX) (padded nn MY) 0 (nn + i) 0,
        index3D (padded nn MX) (padded nn MY) 0 (nn + MY + i) 0,
        Shape.vector (padded nn MZ) (padded nn MX)
          (padded nn MX * padded nn MY),
        nb.south, nb.north, 666⟩])
    ∧ (∀ i, (layerOps nn MX MY MZ nb i).map Op.tag
          = [111, 222, 333, 444, 555, 666])
    ∧ ([111, 222, 333, 444, 555, 666] : List ℕ).Pairwise (fun s t => s ≠ t)
    ∧ (exchangeEvents nn Q MX MY MZ nb).filter isCommEv
        = (List.range Q).flatMap
            (fun _ => (opsFor nn MX MY MZ nb).map Ev.comm) := by
  have e1 : MX + nn + nn = nn + MX + nn := by ring
  have e2 : MY + nn + nn = nn + MY + nn := by ring
  have e3 : MZ + nn + nn = nn + MZ + nn := by ring
  have e4 : (nn + MY + nn) * (nn + MX + nn)
      = (nn + MX + nn) * (nn + MY + nn) := Nat.mul_comm _ _
  refine ⟨?_, fun i => rfl, by decide,
    exchangeEvents_filter_comm nn Q MX MY MZ nb⟩
  unfold opsFor
  apply congrArg (List.flatMap (List.range nn))
  funext i
  simp only [layerOps, zOp1, zOp2, xOp1, xOp2, yOp1, yOp2, stridex, stridey,
    padded, index3D, e1, e2, e3, e4]

end SCMP

namespace SCMP

/-- C7 counterexample: with the contract-violating extent `MX = 0`
(`nn = Q = MY = MZ = 1`, all six neighbors present) the call is not rejected:
its trace still contains six attempted paired communications, contradicting
"rejected before any communication is attempted"; no error value exists
anywhere in the call's behavior — the source performs no validation at
all. -/
theorem C7_counterexample :
    ((exchangeEvents 1 1 0 1 1 wNbrs).filter isCommEv).length = 6
    ∧ ((exchangeEvents 1 1 0 1 1 wNbrs).filter isCommEv).length ≠ 0 := by
  refine ⟨by decide, by decide⟩

/-- C7 amended: the exchange performs no precondition validation and
surfaces no configuration error: for every parameter combination — including
zero extents, `nn = 0` or `Q = 0` — the call proceeds unconditionally,
allocating the scratch buffer first and attempting exactly `Q * (nn * 6)`
paired communications. -/
theorem C7_no_validation (nn Q MX MY MZ : ℕ) (nb : Nbrs) :
    ((exchangeEvents nn Q MX MY MZ nb).filter isCommEv).length = Q * (nn * 6)
    ∧ (exchangeEvents nn Q MX MY MZ nb).head?
        = some (Ev.alloc ((nn + MX + nn) * (nn + MY + nn) * (nn + MZ + nn)))
    := by
  constructor
  · rw [exchangeEvents_filter_comm, List.length_flatMap]
    have hmap : (List.range Q).map
        (List.length ∘ fun _ => (opsFor nn MX MY MZ nb).map Ev.comm)
          = List.replicate Q (nn * 6) := by
      rw [show (List.length ∘ fun _ : ℕ => (opsFor nn MX MY MZ nb).map Ev.comm)
          = fun _ : ℕ => ((opsFor nn MX MY MZ nb).map Ev.comm).length
        from rfl]
      have h6 : ((opsFor nn MX MY MZ nb).map Ev.comm).length = nn * 6 := by
        rw [List.length_map, opsFor_length]
      rw [show (fun _ : ℕ => ((opsFor nn MX MY MZ nb).map Ev.comm).length)
          = fun _ : ℕ => ((opsFor nn MX MY MZ nb).map Ev.comm).length
        from rfl]
      simp only [h6]
      rw [List.map_const', List.length_range]
    rw [hmap, List.sum_replicate, smul_eq_mul]
  · rfl

/-- C8 counterexample: at `Q = 2` components (`nn = MX = MY = MZ = 1`) the
trace contains exactly one scratch allocation, not one per component, and the
single deallocation is the final event of the call — so the scratch
allocation's lifetime spans both components' passes, contradicting
"allocated fresh per component and released immediately after that
component's exchange". -/
theorem C8_counterexample :
    ((exchangeEvents 1 2 1 1 1 wNbrs).filter isAllocEv).length = 1
    ∧ ((exchangeEvents 1 2 1 1 1 wNbrs).filter isAllocEv).length ≠ 2
    ∧ ((exchangeEvents 1 2 1 1 1 wNbrs).filter isFreeEv).length = 1
    ∧ (exchangeEvents 1 2 1 1 1 wNbrs).getLast? = some Ev.free := by
  refine ⟨by decide, by decide, by decide, by decide⟩

/-- C8 amended: a single scratch buffer of `MXP*MYP*MZP` elements is
allocated once, before the first component's Gather, and released once,
after the last component's exchange has been scattered back: the same
allocation is reused by every component pass, so its lifetime spans the
whole call. -/
theorem C8_single_allocation (nn Q MX MY MZ : ℕ) (nb : Nbrs) :
    ((exchangeEvents nn Q MX MY MZ nb).filter isAllocEv).length = 1
    ∧ ((exchangeEvents nn Q MX MY MZ nb).filter isFreeEv).length = 1
    ∧ (exchangeEvents nn Q MX MY MZ nb).head?
        = some (Ev.alloc ((nn + MX + nn) * (nn + MY + nn) * (nn + MZ + nn)))
    ∧ (exchangeEvents nn Q MX MY MZ nb).getLast? = some Ev.free := by
  have hmidA : ((List.range Q).flatMap
      fun _ => (opsFor nn MX MY MZ nb).map Ev.comm).filter isAllocEv = [] := by
    rw [List.filter_eq_nil_iff]
    intro x hx
    obtain ⟨op, rfl⟩ := mid_comm hx
    simp [isAllocEv]
  have hmidF : ((List.range Q).flatMap
      fun _ => (opsFor nn MX MY MZ nb).map Ev.comm).filter isFreeEv = [] := by
    rw [List.filter_eq_nil_iff]
    intro x hx
    obtain ⟨op, rfl⟩ := mid_comm hx
    simp [isFreeEv]
  refine ⟨?_, ?_, rfl, ?_⟩
  · have h1 : List.filter isAllocEv
        [Ev.alloc ((nn + MX + nn) * (nn + MY + nn) * (nn + MZ + nn))]
          = [Ev.alloc ((nn + MX + nn) * (nn + MY + nn) * (nn + MZ + nn))] :=
      rfl
    have h3 : List.filter isAllocEv [Ev.free] = [] := rfl
    simp only [exchangeEvents, List.filter_append, h1, h3, hmidA,
      List.append_nil, List.nil_append, List.length_cons, List.length_nil]
  · have h1 : List.filter isFreeEv
        [Ev.alloc ((nn + MX + nn) * (nn + MY + nn) * (nn + MZ + nn))] = [] :=
      rfl
    have h3 : List.filter isFreeEv [Ev.free] = [Ev.free] := rfl
    simp only [exchangeEvents, List.filter_append, h1, h3, hmidF,
      List.append_nil, List.nil_append, List.length_cons, List.length_nil]
  · show (List.cons (Ev.alloc ((nn + MX + nn) * (nn + MY + nn) * (nn + MZ + nn)))
      (((List.range Q).flatMap fun _ => (opsFor nn MX MY MZ nb).map Ev.comm)
        ++ [Ev.free])).getLast? = some Ev.free
    rw [← List.cons_append, List.getLast?_concat]

end SCMP

namespace SCMP

theorem slab_addr_lt (X Y Z zc t : ℕ) (hzc : zc < Z) (ht : t < X * Y) :
    zc * (X * Y) + t < X * Y * Z := by
  calc zc * (X * Y) + t < zc * (X * Y) + X * Y := by omega
  _ = X * Y * (zc + 1) := by ring
  _ ≤ X * Y * Z := Nat.mul_le_mul_left _ (by omega)

theorem xcol_addr_lt (X Y Z rx bi e : ℕ) (hrx : rx < X) (hbi : bi < Y * Z)
    (he : e < 1) : rx + bi * X + e < X * Y * Z := by
  calc rx + bi * X + e < X + bi * X := by omega
  _ = X * (bi + 1) := by ring
  _ ≤ X * (Y * Z) := Nat.mul_le_mul_left _ (by omega)
  _ = X * Y * Z := by ring

theorem yrow_addr_lt (X Y Z ry bi e : ℕ) (hry : ry < Y) (hbi : bi < Z)
    (he : e < X) : ry * X + bi * (Y * X) + e < X * Y * Z := by
  calc ry * X + bi * (Y * X) + e < ry * X + bi * (Y * X) + X := by omega
  _ = X * (1 + ry + Y * bi) := by ring
  _ ≤ X * (Y + Y * bi) := Nat.mul_le_mul_left _ (by omega)
  _ = X * Y * (1 + bi) := by ring
  _ ≤ X * Y * Z := Nat.mul_le_mul_left _ (by omega)

theorem idx4_lt (P Q m a : ℕ) (hm : m < P) (ha : a < Q) :
    a + m * Q < P * Q := by
  calc a + m * Q < Q + m * Q := by omega
  _ = Q * (m + 1) := by ring
  _ ≤ Q * P := Nat.mul_le_mul_left _ (by omega)
  _ = P * Q := by ring

/-- Every scratch address generated by a send or receive descriptor of any
engine operation lies inside the scratch buffer. -/
theorem opsFor_addr_lt (nn MX MY MZ : ℕ) (nb : Nbrs) (op : Op) (addr : ℕ)
    (hX : 1 ≤ MX) (hY : 1 ≤ MY) (hZ : 1 ≤ MZ) (hn : 1 ≤ nn)
    (hop : op ∈ opsFor nn MX MY MZ nb)
    (haddr : addr ∈ sendAddrs op ∨ addr ∈ recvAddrs op) :
    addr < (nn + MX + nn) * (nn + MY + nn) * (nn + MZ + nn) := by
  have e1 : MX + nn + nn = nn + MX + nn := by ring
  have e2 : MY + nn + nn = nn + MY + nn := by ring
  have e3 : MZ + nn + nn = nn + MZ + nn := by ring
  obtain ⟨i, hi, hc⟩ := mem_opsFor hop
  rcases hc with rfl | rfl | rfl | rfl | rfl | rfl
  · rcases haddr with h | h
    · simp only [sendAddrs, zOp1, zero_mul, Nat.zero_add] at h
      rw [mem_shapeAddrs_contiguous] at h
      obtain ⟨t, ht, rfl⟩ := h
      exact slab_addr_lt _ _ _ _ _ (by omega) ht
    · simp only [recvAddrs, zOp1, zero_mul, Nat.zero_add] at h
      rw [mem_shapeAddrs_contiguous] at h
      obtain ⟨t, ht, rfl⟩ := h
      exact slab_addr_lt _ _ _ _ _ (by omega) ht
  · rcases haddr with h | h
    · simp only [sendAddrs, zOp2, zero_mul, Nat.zero_add] at h
      rw [mem_shapeAddrs_contiguous] at h
      obtain ⟨t, ht, rfl⟩ := h
      exact slab_addr_lt _ _ _ _ _ (by omega) ht
    · simp only [recvAddrs, zOp2, zero_mul, Nat.zero_add] at h
      rw [mem_shapeAddrs_contiguous] at h
      obtain ⟨t, ht, rfl⟩ := h
      exact slab_addr_lt _ _ _ _ _ (by omega) ht
  · rcases haddr with h | h
    · simp only [sendAddrs, xOp1, stridex, e1, e2, e3, zero_mul,
        Nat.add_zero] at h
      rw [mem_shapeAddrs_vector] at h
      obtain ⟨bi, hbi, e, he, rfl⟩ := h
      exact xcol_addr_lt _ _ _ _ _ _ (by omega) hbi he
    · simp only [recvAddrs, xOp1, stridex, e1, e2, e3, zero_mul,
        Nat.add_zero] at h
      rw [mem_shapeAddrs_vector] at h
      obtain ⟨bi, hbi, e, he, rfl⟩ := h
      exact xcol_addr_lt _ _ _ _ _ _ (by omega) hbi he
  · rcases haddr with h | h
    · simp only [sendAddrs, xOp2, stridex, e1, e2, e3, zero_mul,
        Nat.add_zero] at h
      rw [mem_shapeAddrs_vector] at h
      obtain ⟨bi, hbi, e, he, rfl⟩ := h
      exact xcol_addr_lt _ _ _ _ _ _ (by omega) hbi he
    · simp only [recvAddrs, xOp2, stridex, e1, e2, e3, zero_mul,
        Nat.add_zero] at h
      rw [mem_shapeAddrs_vector] at h
      obtain ⟨bi, hbi, e, he, rfl⟩ := h
      exact xcol_addr_lt _ _ _ _ _ _ (by omega) hbi he
  · rcases haddr with h | h
    · simp only [sendAddrs, yOp1, stridey, e1, e2, e3, zero_mul,
        Nat.add_zero, Nat.zero_add] at h
      rw [mem_shapeAddrs_vector] at h
      obtain ⟨bi, hbi, e, he, rfl⟩ := h
      exact yrow_addr_lt _ _ _ _ _ _ (by omega) hbi he
    · simp only [recvAddrs, yOp1, stridey, e1, e2, e3, zero_mul,
        Nat.add_zero, Nat.zero_add] at h
      rw [mem_shapeAddrs_vector] at h
      obtain ⟨bi, hbi, e, he, rfl⟩ := h
      exact yrow_addr_lt _ _ _ _ _ _ (by omega) hbi he
  · rcases haddr with h | h
    · simp only [sendAddrs, yOp2, stridey, e1, e2, e3, zero_mul,
        Nat.add_zero, Nat.zero_add] at h
      rw [mem_shapeAddrs_vector] at h
      obtain ⟨bi, hbi, e, he, rfl⟩ := h
      exact yrow_addr_lt _ _ _ _ _ _ (by omega) hbi he
    · simp only [recvAddrs, yOp2, stridey, e1, e2, e3, zero_mul,
        Nat.add_zero, Nat.zero_add] at h
      rw [mem_shapeAddrs_vector] at h
      obtain ⟨bi, hbi, e, he, rfl⟩ := h
      exact yrow_addr_lt _ _ _ _ _ _ (by omega) hbi he

/-- C10: under `MX,MY,MZ ≥ 1`, `nn ≥ 1` and `a < Q`, every scratch address
generated by any send or receive descriptor of the engine lies in
`[0, MXP*MYP*MZP)`, and every index touched by Gather/Scatter lies in
`[0, MXP*MYP*MZP)` on the scratch side and in `[0, MXP*MYP*MZP*Q)` on the
interleaved side. -/
theorem C10_addressing_safe (nn Q MX MY MZ : ℕ) (nb : Nbrs) (op : Op)
    (addr i j k a : ℕ)
    (hX : 1 ≤ MX) (hY : 1 ≤ MY) (hZ : 1 ≤ MZ) (hn : 1 ≤ nn)
    (hop : op ∈ opsFor nn MX MY MZ nb)
    (haddr : addr ∈ sendAddrs op ∨ addr ∈ recvAddrs op)
    (hi : i < padded nn MX) (hj : j < padded nn MY) (hk : k < padded nn MZ)
    (ha : a < Q) :
    addr < padded nn MX * padded nn MY * padded nn MZ
    ∧ index3D (padded nn MX) (padded nn MY) i j k
        < padded nn MX * padded nn MY * padded nn MZ
    ∧ index4D (padded nn MX) (padded nn MY) Q i j k a
        < padded nn MX * padded nn MY * padded nn MZ * Q := by
  have hm : index3D (padded nn MX) (padded nn MY) i j k
      < padded nn MX * padded nn MY * padded nn MZ :=
    index3D_lt _ _ _ _ _ _ hi hj hk
  refine ⟨opsFor_addr_lt nn MX MY MZ nb op addr hX hY hZ hn hop haddr, hm, ?_⟩
  have h4 : index4D (padded nn MX) (padded nn MY) Q i j k a
      = a + index3D (padded nn MX) (padded nn MY) i j k * Q := rfl
  rw [h4]
  exact idx4_lt _ _ _ _ hm ha

/-- Witness for C10 at `nn=1, Q=2, MX=MY=MZ=1`, the south-sending operation
of layer 0, its first send address, voxel `(1,1,1)`, component 1. -/
theorem C10_addressing_safe_witness :
    (3 : ℕ) < padded 1 1 * padded 1 1 * padded 1 1
    ∧ index3D (padded 1 1) (padded 1 1) 1 1 1
        < padded 1 1 * padded 1 1 * padded 1 1
    ∧ index4D (padded 1 1) (padded 1 1) 2 1 1 1 1
        < padded 1 1 * padded 1 1 * padded 1 1 * 2 :=
  C10_addressing_safe 1 2 1 1 1 wNbrs (yOp2 1 1 1 1 wNbrs 0) 3 1 1 1 1
    (by decide) (by decide) (by decide) (by decide) (by decide)
    (Or.inl (by decide)) (by decide) (by decide) (by decide) (by decide)

end SCMP
